import Mathlib

/-!
Verification of the `pysces` boundary-element code (`bempy.py`) against its
natural-language specification.  The Python source is shallowly embedded:
exact real arithmetic (`ℝ`) stands for floating point where trigonometry and
square roots occur, and rationals (`ℚ`) where all quantities are rational.
Integer division `/` on Python 2 ints is modelled by `Nat` floor division.
-/

namespace Pysces

/-! ## EuclideanTransformation (bempy.py lines 3-58)

A transformation stores `angle` (degrees) and `displacement` (2-vector).
The rotation matrix `_R = [[cos th, sin th], [-sin th, cos th]]` with
`th = angle * pi / 180` is always re-derived from the angle; we embed its
action on a 2-vector directly. -/

/-- Action of the derived rotation matrix `_R` on a column 2-vector:
`_R = [[cos th, sin th], [-sin th, cos th]]`, `th = angle * π / 180`. -/
noncomputable def Rapply (angle : ℝ) (v : ℝ × ℝ) : ℝ × ℝ :=
  (Real.cos (angle * Real.pi / 180) * v.1 + Real.sin (angle * Real.pi / 180) * v.2,
   -Real.sin (angle * Real.pi / 180) * v.1 + Real.cos (angle * Real.pi / 180) * v.2)

/-- Action of the transpose `_R.T` on a column 2-vector (used by `inverse`). -/
noncomputable def RTapply (angle : ℝ) (v : ℝ × ℝ) : ℝ × ℝ :=
  (Real.cos (angle * Real.pi / 180) * v.1 - Real.sin (angle * Real.pi / 180) * v.2,
   Real.sin (angle * Real.pi / 180) * v.1 + Real.cos (angle * Real.pi / 180) * v.2)

/-- `EuclideanTransformation(angle, displacement)`: `angle` in degrees,
`displacement` a 2-vector. -/
structure EuclideanTransformation where
  angle : ℝ
  displacement : ℝ × ℝ

namespace EuclideanTransformation

/-- `inverse(self)`: angle negated, displacement `-R.T @ displacement`. -/
noncomputable def inverse (t : EuclideanTransformation) : EuclideanTransformation :=
  ⟨-t.angle, -(RTapply t.angle t.displacement)⟩

/-- `compose(self, other)`: if `other is None` return `self`; otherwise the
angle is `self.angle + other.angle` and the displacement is
`self._R @ other.displacement + self._displacement`. -/
noncomputable def compose (t : EuclideanTransformation) :
    Option EuclideanTransformation → EuclideanTransformation
  | none => t
  | some o => ⟨t.angle + o.angle, Rapply t.angle o.displacement + t.displacement⟩

open Classical in
/-- `xform_position(self, vector)` for a single 2-vector: rotate only when the
angle is nonzero (Python truthiness), translate only when the displacement has
a nonzero component (`.any()`). -/
noncomputable def xform_position (t : EuclideanTransformation) (v : ℝ × ℝ) : ℝ × ℝ :=
  let v1 := if t.angle = 0 then v else Rapply t.angle v
  if t.displacement = 0 then v1 else v1 + t.displacement

end EuclideanTransformation

/-! Basic facts about the transformation layer. -/

theorem Rapply_zero (v : ℝ × ℝ) : Rapply 0 v = v := by
  simp [Rapply]

/-- The conditional guards in `xform_position` skip only identity operations:
the result always equals rotation followed by translation. -/
theorem xform_position_eq (t : EuclideanTransformation) (v : ℝ × ℝ) :
    t.xform_position v = Rapply t.angle v + t.displacement := by
  unfold EuclideanTransformation.xform_position
  by_cases ha : t.angle = 0 <;> by_cases hd : t.displacement = 0 <;>
    simp [ha, hd, Rapply_zero]

/-- Rotations compose additively: applying `_R(a)` after `_R(b)` equals
applying `_R(a+b)`. -/
theorem Rapply_add (a b : ℝ) (v : ℝ × ℝ) :
    Rapply (a + b) v = Rapply a (Rapply b v) := by
  have hab : (a + b) * Real.pi / 180 = a * Real.pi / 180 + b * Real.pi / 180 := by
    ring
  simp only [Rapply, hab, Real.cos_add, Real.sin_add, Prod.mk.injEq]
  constructor <;> ring

/-- C2: For every pair of transformations A (outer) and B (inner),
`A.compose(B)` has angle `A.angle + B.angle` and displacement
`A.rotation · B.displacement + A.displacement`; this matches rigid-motion
composition (apply B, then A, as maps on points); and `A.compose(None)`
returns `A` unchanged. -/
theorem compose_spec (A B : EuclideanTransformation) :
    (A.compose (some B)).angle = A.angle + B.angle ∧
    (A.compose (some B)).displacement
      = Rapply A.angle B.displacement + A.displacement ∧
    A.compose none = A ∧
    ∀ v : ℝ × ℝ, (A.compose (some B)).xform_position v
      = A.xform_position (B.xform_position v) := by
  refine ⟨rfl, rfl, rfl, fun v => ?_⟩
  simp only [xform_position_eq, EuclideanTransformation.compose, Rapply_add]
  simp only [Rapply, Prod.mk_add_mk, Prod.ext_iff, Prod.fst_add, Prod.snd_add]
  constructor <;> ring

/-- C3: composing a transformation with its own inverse yields angle exactly 0
and displacement exactly (0,0) over exact real arithmetic. -/
theorem compose_inverse_eq_id (θ : ℝ) (d : ℝ × ℝ) :
    (EuclideanTransformation.mk θ d).compose
      (some (EuclideanTransformation.mk θ d).inverse)
    = ⟨0, (0, 0)⟩ := by
  have h := Real.sin_sq_add_cos_sq (θ * Real.pi / 180)
  simp only [EuclideanTransformation.compose, EuclideanTransformation.inverse,
    Rapply, RTapply, Prod.neg_mk, Prod.mk_add_mk, EuclideanTransformation.mk.injEq,
    Prod.ext_iff, Prod.fst_add, Prod.snd_add]
  exact ⟨by ring, by linear_combination (-d.1) * h, by linear_combination (-d.2) * h⟩

/-! ## Body / TransformedBody time chain (bempy.py lines 61-83, 145-181)

A decorator chain is a root `Body` wrapped in zero or more `TransformedBody`
decorators (`Pitching` and `Heaving` inherit the `time` property of
`TransformedBody` unchanged).  The one piece of mutable state relevant to `time` is the
root `_time` scalar, modelled as an explicit state `σ : ℚ`.  Each decorator
stores `_body = parent.get_body()` at construction; `get_body` on the root
returns the root itself. -/

/-- A node of a decorator chain: the root `Body`, or a `TransformedBody`
(also `Pitching`/`Heaving`) wrapping a parent node. -/
inductive BodyNode
  | base : BodyNode
  | deco : BodyNode → BodyNode

/-- `get_body()`: a root `Body` returns itself; a `TransformedBody` returns
its stored `_body`, which was set at construction to `parent.get_body()`. -/
def get_body : BodyNode → BodyNode
  | BodyNode.base => BodyNode.base
  | BodyNode.deco p => get_body p

theorem get_body_eq_base (n : BodyNode) : get_body n = BodyNode.base := by
  induction n with
  | base => rfl
  | deco p ih => exact ih

theorem sizeOf_pos_bodyNode (n : BodyNode) : 0 < sizeOf n := by
  cases n <;> simp

/-- `time` getter: the root `Body` reads its own `_time` (the state `σ`);
a `TransformedBody` reads `self._body.time`, where `_body` is
`parent.get_body()`. -/
def time_get : BodyNode → ℚ → ℚ
  | BodyNode.base, σ => σ
  | BodyNode.deco p, σ => time_get (get_body p) σ
termination_by n _ => sizeOf n
decreasing_by
  rw [get_body_eq_base]
  have := sizeOf_pos_bodyNode p
  simp
  omega

/-- `time` setter: the root `Body` writes its own `_time`; a `TransformedBody`
writes `self._body.time = value`.  Returns the updated root time state. -/
def time_set : BodyNode → ℚ → ℚ → ℚ
  | BodyNode.base, _, v => v
  | BodyNode.deco p, σ, v => time_set (get_body p) σ v
termination_by n _ _ => sizeOf n
decreasing_by
  rw [get_body_eq_base]
  have := sizeOf_pos_bodyNode p
  simp
  omega

/-- Apply a sequence of time writes, each performed through an arbitrary node
of the chain. -/
def applyWrites (σ : ℚ) (writes : List (BodyNode × ℚ)) : ℚ :=
  writes.foldl (fun s w => time_set w.1 s w.2) σ

theorem time_get_eq_state (n : BodyNode) (σ : ℚ) : time_get n σ = σ := by
  cases n with
  | base => simp [time_get]
  | deco p => rw [time_get, get_body_eq_base]; simp [time_get]

theorem time_set_eq_value (n : BodyNode) (σ v : ℚ) : time_set n σ v = v := by
  cases n with
  | base => simp [time_set]
  | deco p => rw [time_set, get_body_eq_base]; simp [time_set]

/-- C4: in any decorator chain the time property reads and writes the single
scalar stored in the root `Body`: a write through any node is observed by a
read through any node, and after an arbitrary sequence of writes every node of
the chain observes the same time value. -/
theorem time_shared_through_chain :
    (∀ (m n : BodyNode) (σ v : ℚ), time_get n (time_set m σ v) = v) ∧
    (∀ (writes : List (BodyNode × ℚ)) (σ : ℚ) (n₁ n₂ : BodyNode),
      time_get n₁ (applyWrites σ writes) = time_get n₂ (applyWrites σ writes)) := by
  constructor
  · intro m n σ v
    rw [time_set_eq_value, time_get_eq_state]
  · intro writes σ n₁ n₂
    rw [time_get_eq_state, time_get_eq_state]

/-! ## Pitching (bempy.py lines 191-203)

`Pitching.__init__(body, amplitude, frequency, phase=0.)` stores the
amplitude, the frequency, and `phase * π / 180`; `get_transformation()` first
executes `self.angle = amplitude * sin(frequency * self.time + self._phase)`
(an angle in degrees) before delegating to the decorator composition. -/

/-- The angle (degrees) that `Pitching.get_transformation` writes into the
own transformation of the decorator at shared time `t`, for construction arguments
`amplitude`, `frequency`, `phase` (the stored phase is `phase * π / 180`). -/
noncomputable def Pitching.angleAt (amplitude frequency phase t : ℝ) : ℝ :=
  amplitude * Real.sin (frequency * t + phase * Real.pi / 180)

/-- C9: for a `Pitching` decorator with amplitude A, frequency ω and phase 0,
`get_transformation()` at shared time t sets the own angle of the decorator to
exactly `A·sin(ω·t)` (degrees); in particular at t = 0 the angle is 0. -/
theorem pitching_angle_spec (A ω phase t : ℝ) (hphase : phase = 0) :
    Pitching.angleAt A ω phase t = A * Real.sin (ω * t) ∧
    Pitching.angleAt A ω phase 0 = 0 := by
  subst hphase
  constructor
  · simp [Pitching.angleAt]
  · simp [Pitching.angleAt]

/-- Witness for C9 at amplitude 2, frequency 3, phase 0, time 0. -/
theorem pitching_angle_spec_witness :
    Pitching.angleAt 2 3 0 0 = 2 * Real.sin (3 * 0) ∧
    Pitching.angleAt 2 3 0 0 = 0 :=
  pitching_angle_spec 2 3 0 0 rfl

/-! ## BoundVortexPanels (bempy.py lines 225-243)

`BoundVortexPanels.__init__(body)` stacks the body-frame boundary points into
`q`, takes `dq = np.diff(q)`, and derives panel count, normals, vortex and
collocation points, and strengths.  Boundary points are modelled as exact
rationals; `self._numpanels / 2` is Python 2 integer division (floor).  The
constructor body contains no `raise` statement: every input yields a value. -/

/-- A boundary point (body-fixed frame). -/
abbrev Point := ℚ × ℚ

/-- `dq = np.diff(q)`: the edge vector of each panel, next point minus
current point; there are (number of points − 1) of them. -/
def diffs (pts : List Point) : List Point :=
  List.zipWith (fun a b => b - a) pts (pts.drop 1)

/-- `self._numpanels = dq.shape[1]`. -/
def numpanels (pts : List Point) : ℕ := (diffs pts).length

/-- `q25 = q[:,:-1] + 0.25 * dq`: the point 1/4 of the way along each panel
edge from its start. -/
def q25 (pts : List Point) : List Point :=
  List.zipWith (fun p d => p + (1 / 4 : ℚ) • d) pts (diffs pts)

/-- `q75 = q[:,:-1] + 0.75 * dq`: the point 3/4 of the way along each panel
edge from its start. -/
def q75 (pts : List Point) : List Point :=
  List.zipWith (fun p d => p + (3 / 4 : ℚ) • d) pts (diffs pts)

/-- `half = self._numpanels / 2` (Python 2 integer division: floor). -/
def half (pts : List Point) : ℕ := numpanels pts / 2

/-- `self._xvort = np.hstack([q75[:, :half], q25[:, half:]])`. -/
def xvort (pts : List Point) : List Point :=
  (q75 pts).take (half pts) ++ (q25 pts).drop (half pts)

/-- `self._xcoll = np.hstack([q25[:, :half], q75[:, half:]])`. -/
def xcoll (pts : List Point) : List Point :=
  (q25 pts).take (half pts) ++ (q75 pts).drop (half pts)

/-- `self._gam = np.zeros(self._numpanels)`. -/
def gam (pts : List Point) : List ℚ := List.replicate (numpanels pts) 0

/-- `self._normals = np.vstack([dq[1,:], -dq[0,:]]) / np.linalg.norm(dq, axis=0)`:
each edge vector rotated by -90° and divided by the edge length (an unguarded
division: a zero-length edge divides by zero). -/
noncomputable def normals (pts : List Point) : List (ℝ × ℝ) :=
  (diffs pts).map (fun d =>
    ((d.2 : ℝ) / Real.sqrt ((d.1 : ℝ) ^ 2 + (d.2 : ℝ) ^ 2),
     -(d.1 : ℝ) / Real.sqrt ((d.1 : ℝ) ^ 2 + (d.2 : ℝ) ^ 2)))

theorem diffs_length (pts : List Point) : (diffs pts).length = pts.length - 1 := by
  simp [diffs]

theorem numpanels_eq (pts : List Point) : numpanels pts = pts.length - 1 := by
  rw [numpanels, diffs_length]

theorem q25_length (pts : List Point) : (q25 pts).length = numpanels pts := by
  simp [q25, numpanels, diffs_length]

theorem q75_length (pts : List Point) : (q75 pts).length = numpanels pts := by
  simp [q75, numpanels, diffs_length]

theorem diffs_getD (pts : List Point) (i : ℕ) (hi : i < numpanels pts) :
    (diffs pts).getD i 0 = pts.getD (i + 1) 0 - pts.getD i 0 := by
  have hl := diffs_length pts
  rw [numpanels] at hi
  have h1 : i < pts.length := by omega
  have h2 : i + 1 < pts.length := by omega
  rw [List.getD_eq_getElem _ _ hi, List.getD_eq_getElem _ _ h1, List.getD_eq_getElem _ _ h2]
  unfold diffs
  rw [List.getElem_zipWith]
  simp [List.getElem_drop]

theorem q25_getD (pts : List Point) (i : ℕ) (hi : i < numpanels pts) :
    (q25 pts).getD i 0
      = pts.getD i 0 + (1 / 4 : ℚ) • (pts.getD (i + 1) 0 - pts.getD i 0) := by
  have hl := diffs_length pts
  have hdq := diffs_getD pts i hi
  have hql := q25_length pts
  rw [numpanels] at hi
  have h1 : i < pts.length := by omega
  rw [List.getD_eq_getElem _ _ (by rw [hql, numpanels]; exact hi),
    List.getD_eq_getElem _ _ h1]
  rw [List.getD_eq_getElem _ _ hi] at hdq
  unfold q25
  rw [List.getElem_zipWith]
  rw [List.getD_eq_getElem _ _ h1] at hdq
  rw [hdq]

theorem q75_getD (pts : List Point) (i : ℕ) (hi : i < numpanels pts) :
    (q75 pts).getD i 0
      = pts.getD i 0 + (3 / 4 : ℚ) • (pts.getD (i + 1) 0 - pts.getD i 0) := by
  have hl := diffs_length pts
  have hdq := diffs_getD pts i hi
  have hql := q75_length pts
  rw [numpanels] at hi
  have h1 : i < pts.length := by omega
  rw [List.getD_eq_getElem _ _ (by rw [hql, numpanels]; exact hi),
    List.getD_eq_getElem _ _ h1]
  rw [List.getD_eq_getElem _ _ hi] at hdq
  unfold q75
  rw [List.getElem_zipWith]
  rw [List.getD_eq_getElem _ _ h1] at hdq
  rw [hdq]

/-- Indexing `np.hstack([a[:, :k], b[:, k:]])` when both `a` and `b` have `n`
columns: column `i` comes from `a` when `i < k` and from `b` otherwise. -/
theorem hstack_getD (a b : List Point) (k n i : ℕ) (ha : a.length = n) (hb : b.length = n)
    (hk : k ≤ n) (hi : i < n) :
    (a.take k ++ b.drop k).getD i 0 = if i < k then a.getD i 0 else b.getD i 0 := by
  have hlen : (a.take k ++ b.drop k).length = n := by
    simp [ha, hb]
    omega
  by_cases h : i < k
  · rw [if_pos h, List.getD_eq_getElem _ _ (by omega : i < (a.take k ++ b.drop k).length),
      List.getD_eq_getElem _ _ (by omega : i < a.length)]
    rw [List.getElem_append_left (by simp [ha]; omega)]
    simp [List.getElem_take]
  · rw [if_neg h, List.getD_eq_getElem _ _ (by omega : i < (a.take k ++ b.drop k).length),
      List.getD_eq_getElem _ _ (by omega : i < b.length)]
    rw [List.getElem_append_right (by simp [ha]; omega)]
    simp [List.getElem_drop, ha]
    congr 1
    omega

/-- C1 is false on the code: for the 3-point contour (0,0), (4,0), (8,0)
there are 2 panels and the half-split index is 1, so panel 0 lies in the
front half; the code places its vortex point at (3,0), which is 3/4 of the
way along the edge from its start — not at the 1/4 point (1,0) the claim
requires. -/
theorem front_half_vortex_not_at_quarter :
    half [((0 : ℚ), (0 : ℚ)), (4, 0), (8, 0)] = 1 ∧
    numpanels [((0 : ℚ), (0 : ℚ)), (4, 0), (8, 0)] = 2 ∧
    (xvort [((0 : ℚ), (0 : ℚ)), (4, 0), (8, 0)]).getD 0 0 = (3, 0) ∧
    ((3 : ℚ), (0 : ℚ))
      ≠ ((0 : ℚ), (0 : ℚ)) + (1 / 4 : ℚ) • (((4 : ℚ), (0 : ℚ)) - ((0 : ℚ), (0 : ℚ))) := by
  refine ⟨by decide, by decide, ?_, ?_⟩
  · norm_num [xvort, xcoll, q75, q25, half, numpanels, diffs, Prod.ext_iff]
  · norm_num [Prod.ext_iff, Prod.smul_mk, Prod.mk_add_mk, Prod.mk_sub_mk]

/-- C1 (amended): panels in the front half (indices below
`floor(numpanels/2)`) have their vortex point at 3/4 of the panel edge from
its start and their collocation point at 1/4, and panels in the back half
have the reverse (vortex at 1/4, collocation at 3/4). -/
theorem panel_point_placement (pts : List Point) (i : ℕ) (hi : i < numpanels pts) :
    (i < half pts →
      (xvort pts).getD i 0
          = pts.getD i 0 + (3 / 4 : ℚ) • (pts.getD (i + 1) 0 - pts.getD i 0) ∧
      (xcoll pts).getD i 0
          = pts.getD i 0 + (1 / 4 : ℚ) • (pts.getD (i + 1) 0 - pts.getD i 0)) ∧
    (half pts ≤ i →
      (xvort pts).getD i 0
          = pts.getD i 0 + (1 / 4 : ℚ) • (pts.getD (i + 1) 0 - pts.getD i 0) ∧
      (xcoll pts).getD i 0
          = pts.getD i 0 + (3 / 4 : ℚ) • (pts.getD (i + 1) 0 - pts.getD i 0)) := by
  have h25 := q25_getD pts i hi
  have h75 := q75_getD pts i hi
  have h25l := q25_length pts
  have h75l := q75_length pts
  have hhalf : half pts ≤ numpanels pts := Nat.div_le_self _ _
  constructor
  · intro h
    rw [xvort, xcoll,
      hstack_getD _ _ _ _ _ h75l h25l hhalf hi,
      hstack_getD _ _ _ _ _ h25l h75l hhalf hi,
      if_pos h, if_pos h]
    exact ⟨h75, h25⟩
  · intro h
    rw [xvort, xcoll,
      hstack_getD _ _ _ _ _ h75l h25l hhalf hi,
      hstack_getD _ _ _ _ _ h25l h75l hhalf hi,
      if_neg (by omega), if_neg (by omega)]
    exact ⟨h25, h75⟩

/-- Witness for the amended C1 on the contour (0,0), (4,0), (8,0): panel 0
(front half) has vortex (3,0) and collocation (1,0); panel 1 (back half) has
vortex (5,0) and collocation (7,0). -/
theorem panel_point_placement_witness :
    ((xvort [((0 : ℚ), (0 : ℚ)), (4, 0), (8, 0)]).getD 0 0
        = ((0 : ℚ), (0 : ℚ)) + (3 / 4 : ℚ) • (((4 : ℚ), (0 : ℚ)) - ((0 : ℚ), (0 : ℚ))) ∧
      (xcoll [((0 : ℚ), (0 : ℚ)), (4, 0), (8, 0)]).getD 0 0
        = ((0 : ℚ), (0 : ℚ)) + (1 / 4 : ℚ) • (((4 : ℚ), (0 : ℚ)) - ((0 : ℚ), (0 : ℚ)))) ∧
    ((xvort [((0 : ℚ), (0 : ℚ)), (4, 0), (8, 0)]).getD 1 0
        = ((4 : ℚ), (0 : ℚ)) + (1 / 4 : ℚ) • (((8 : ℚ), (0 : ℚ)) - ((4 : ℚ), (0 : ℚ))) ∧
      (xcoll [((0 : ℚ), (0 : ℚ)), (4, 0), (8, 0)]).getD 1 0
        = ((4 : ℚ), (0 : ℚ)) + (3 / 4 : ℚ) • (((8 : ℚ), (0 : ℚ)) - ((4 : ℚ), (0 : ℚ)))) :=
  ⟨(panel_point_placement _ 0 (by decide)).1 (by decide),
   (panel_point_placement _ 1 (by decide)).2 (by decide)⟩

/-- C5 is false on the code: `BoundVortexPanels.__init__` contains no
point-count check and no `raise`; given a single boundary point it completes
normally, producing 0 panels and empty arrays, instead of raising an
`InsufficientGeometryError` (which exists nowhere in the source). -/
theorem single_point_construction_succeeds :
    numpanels [((0 : ℚ), (0 : ℚ))] = 0 ∧
    xvort [((0 : ℚ), (0 : ℚ))] = [] ∧
    xcoll [((0 : ℚ), (0 : ℚ))] = [] ∧
    gam [((0 : ℚ), (0 : ℚ))] = [] := by
  refine ⟨by decide, by decide, by decide, by decide⟩

/-- C5 (amended): panel construction never fails, whatever the number of
boundary points; it always yields (number of points − 1) panels — so 0 panels
for a single point — and one zero strength per panel. -/
theorem construction_total_panel_count (pts : List Point) :
    numpanels pts = pts.length - 1 ∧ (gam pts).length = pts.length - 1 ∧
    (xvort pts).length = pts.length - 1 := by
  have h1 := numpanels_eq pts
  have h75 := q75_length pts
  have h25 := q25_length pts
  refine ⟨h1, by simp [gam, h1], ?_⟩
  have hhalf : half pts ≤ numpanels pts := Nat.div_le_self _ _
  simp [xvort, h75, h25]
  omega

/-- C6 is false on the code: the normal computation has no degeneracy check;
for the contour with two identical points (0,0), (0,0) construction completes
normally with one panel, and the computed "normal" of the degenerate panel is the
division-by-zero value ((0,0) in this exact embedding; NaN in IEEE floats) —
in particular not a unit vector — instead of a `DegeneratePanelError` being
raised (no such error exists in the source). -/
theorem degenerate_panel_silent :
    numpanels [((0 : ℚ), (0 : ℚ)), ((0 : ℚ), (0 : ℚ))] = 1 ∧
    normals [((0 : ℚ), (0 : ℚ)), ((0 : ℚ), (0 : ℚ))] = [((0 : ℝ), (0 : ℝ))] ∧
    ¬ ((0 : ℝ) ^ 2 + (0 : ℝ) ^ 2 = 1) := by
  refine ⟨by decide, ?_, by norm_num⟩
  simp [normals, diffs]

/-- C6 (amended): a degenerate (zero-length) panel edge is not rejected:
construction succeeds, and the panel normal is computed by dividing the zero
edge vector by its zero length (silently yielding non-finite components in
floating point; the zero vector in this exact embedding). -/
theorem degenerate_normal_silent_zero (pts : List Point) (i : ℕ)
    (hi : i < numpanels pts) (hdeg : pts.getD (i + 1) 0 = pts.getD i 0) :
    (normals pts).getD i 0 = ((0 : ℝ), (0 : ℝ)) := by
  have hdq := diffs_getD pts i hi
  rw [hdeg, sub_self] at hdq
  rw [numpanels] at hi
  have hnl : (normals pts).length = (diffs pts).length := by simp [normals]
  rw [List.getD_eq_getElem _ _ (by omega : i < (normals pts).length)]
  unfold normals
  rw [List.getElem_map]
  rw [List.getD_eq_getElem _ _ hi] at hdq
  rw [hdq]
  norm_num

/-- Witness for the amended C6: the degenerate contour (0,0), (0,0) has a
panel whose computed normal is the zero vector. -/
theorem degenerate_normal_silent_zero_witness :
    (normals [((0 : ℚ), (0 : ℚ)), ((0 : ℚ), (0 : ℚ))]).getD 0 0 = ((0 : ℝ), (0 : ℝ)) :=
  degenerate_normal_silent_zero _ 0 (by decide) (by decide)

/-! ## Airfoil (bempy.py lines 101-142)

`Airfoil.__init__(code, num_points, zero_thick_te=False, uniform=False)`
first renders the code as `code_str = "%04d" % int(code)` and raises
`ValueError` when the result is not exactly 4 characters, then decodes the
camber/thickness parameters, builds the chordwise stations, the thickness and
camber distributions, and assembles the boundary with
`self._x = np.hstack([x[-1:0:-1], x])` (and the matching `self._y`). -/

/-- Decimal digit list of a non-negative integer, most significant digit
first, as Python `"%d"` renders it (a single `0` for zero). -/
def decimalDigits (n : ℕ) : List ℕ :=
  if n = 0 then [0] else (Nat.digits 10 n).reverse

/-- `code_str = "%04d" % int(code)` for a non-negative code: the decimal
digit string zero-padded on the left to at least 4 characters. -/
def codeStr (n : ℕ) : List ℕ :=
  List.replicate (4 - (decimalDigits n).length) 0 ++ decimalDigits n

/-- The 4-digit check and parameter extraction at the top of
`Airfoil.__init__`: when `len(code_str) != 4` the constructor raises
`ValueError("NACA designation is more than 4 digits")` (named
`InvalidSpecification` by the specification); otherwise `max_camber = 0.01 * int(code_str[0])`,
`p = 0.1 * int(code_str[1])` and `thickness = 0.01 * int(code_str[2:])`. -/
def airfoilParams (code : ℕ) : Except String (ℚ × ℚ × ℚ) :=
  if (codeStr code).length = 4 then
    Except.ok ((((codeStr code).getD 0 0 : ℕ) : ℚ) / 100,
               (((codeStr code).getD 1 0 : ℕ) : ℚ) / 10,
               (((10 * (codeStr code).getD 2 0 + (codeStr code).getD 3 0 : ℕ)) : ℚ) / 100)
  else Except.error "NACA designation is more than 4 digits"

/-- `np.linspace(a, b, n)`: `n` evenly spaced samples from `a` to `b`,
endpoints included. -/
noncomputable def linspace (a b : ℝ) (n : ℕ) : List ℝ :=
  (List.range n).map (fun i : ℕ => a + (b - a) * (i : ℝ) / ((n : ℝ) - 1))

/-- Chordwise stations: `np.linspace(0, 1, N)` when `uniform`, otherwise the
cosine clustering `x = 1 - cos θ` for `θ = np.linspace(0, π/2, N)`. -/
noncomputable def airfoilStations (uniform : Bool) (num_points : ℕ) : List ℝ :=
  if uniform then linspace 0 1 num_points
  else (linspace 0 (Real.pi / 2) num_points).map (fun th => 1 - Real.cos th)

/-- `np.polyval(p, x)`: polynomial with coefficient list `p`, highest power
first (Horner evaluation). -/
noncomputable def polyval (p : List ℝ) (x : ℝ) : ℝ :=
  p.foldl (fun acc c => acc * x + c) 0

/-- The thickness coefficient list `coefs`; the leading coefficient becomes
−0.1036 for a zero-thickness trailing edge. -/
noncomputable def coefs (zero_thick_te : Bool) : List ℝ :=
  [if zero_thick_te then -0.1036 else -0.1015, 0.2843, -0.3516, -0.1260, 0, 0.2969]

/-- `y_thick = 5 * thickness * (polyval(coefs[:5], x) + coefs[5]*sqrt(x))`. -/
noncomputable def y_thick (zero_thick_te : Bool) (thickness x : ℝ) : ℝ :=
  5 * thickness * (polyval ((coefs zero_thick_te).take 5) x
    + ((coefs zero_thick_te).getD 5 0) * Real.sqrt x)

open Classical in
/-- The camber line: identically zero when `p = 0` (the `if p:` guard);
otherwise the `np.where(x <= p)` front mask takes the forward formula and the
`x > p` mask the aft formula. -/
noncomputable def y_camber (max_camber p x : ℝ) : ℝ :=
  if p = 0 then 0
  else if x ≤ p then max_camber * x / p ^ 2 * (2 * p - x)
  else max_camber * ((1 - x) / (1 - p) ^ 2 * (1 + x - 2 * p))

/-- `self._x = np.hstack([x[-1:0:-1], x])`: the slice `x[-1:0:-1]` is the
station list reversed, stopping before index 0, followed by the full list. -/
noncomputable def airfoilX (s : List ℝ) : List ℝ := (s.drop 1).reverse ++ s

/-- `self._y = np.hstack([y_camber[-1:0:-1] + y_thick[-1:0:-1],
y_camber - y_thick])`: the upper surface (camber plus thickness) reversed
without its first entry, followed by the lower surface (camber minus
thickness). -/
noncomputable def airfoilY (yc yt : List ℝ) : List ℝ :=
  ((List.zipWith (fun a b => a + b) yc yt).drop 1).reverse
    ++ List.zipWith (fun a b => a - b) yc yt

theorem decimalDigits_length_le_four (n : ℕ) :
    (decimalDigits n).length ≤ 4 ↔ n < 10000 := by
  by_cases h0 : n = 0
  · subst h0
    simp [decimalDigits]
  · have hlog : n < 10 ^ 4 ↔ Nat.log 10 n < 4 :=
      Nat.lt_pow_iff_log_lt (by norm_num) h0
    rw [decimalDigits, if_neg h0, List.length_reverse,
      Nat.digits_len 10 n (by norm_num) h0]
    have h4 : (10 : ℕ) ^ 4 = 10000 := by norm_num
    rw [← h4]
    constructor
    · intro h
      exact hlog.mpr (by omega)
    · intro h
      have := hlog.mp h
      omega

theorem codeStr_length_eq_max (n : ℕ) :
    (codeStr n).length = max 4 (decimalDigits n).length := by
  simp [codeStr]
  omega

/-- C8: a code that does not resolve to exactly 4 digits, such as 99999,
fails at construction time with the invalid-specification error (the
`ValueError` raised before any geometry is computed). -/
theorem airfoil_code_99999_rejected :
    airfoilParams 99999 = Except.error "NACA designation is more than 4 digits" := by
  have h : codeStr 99999 = [9, 9, 9, 9, 9] := by
    simp [codeStr, decimalDigits, Nat.digits_def']
  simp [airfoilParams, h]

/-- C10: every code value below 10000 passes the 4-digit check — short codes
are zero-padded on the left (12 becomes 0012) — and the check fails exactly
for values of 10000 or more. -/
theorem airfoil_code_padding_accepts (n : ℕ) :
    (n < 10000 → (codeStr n).length = 4 ∧ (airfoilParams n).isOk = true) ∧
    (10000 ≤ n → (airfoilParams n).isOk = false) ∧
    codeStr 12 = [0, 0, 1, 2] := by
  obtain ⟨hmp, hmpr⟩ := decimalDigits_length_le_four n
  have hcs := codeStr_length_eq_max n
  refine ⟨?_, ?_, ?_⟩
  · intro h
    have hdd := hmpr h
    have hlen : (codeStr n).length = 4 := by omega
    exact ⟨hlen, by simp [airfoilParams, hlen, Except.isOk, Except.toBool]⟩
  · intro h
    have hdd : ¬ (decimalDigits n).length ≤ 4 := fun hle => by omega
    have hlen : (codeStr n).length ≠ 4 := by omega
    simp [airfoilParams, hlen, Except.isOk, Except.toBool]
  · simp [codeStr, decimalDigits, Nat.digits_def']

/-- Witness for C10: code 12 is zero-padded and accepted; code 10000 is
rejected. -/
theorem airfoil_code_padding_accepts_witness :
    ((codeStr 12).length = 4 ∧ (airfoilParams 12).isOk = true) ∧
    (airfoilParams 10000).isOk = false :=
  ⟨(airfoil_code_padding_accepts 12).1 (by norm_num),
   (airfoil_code_padding_accepts 10000).2.1 (by norm_num)⟩

theorem linspace_length (a b : ℝ) (n : ℕ) : (linspace a b n).length = n := by
  rw [linspace, List.length_map, List.length_range]

theorem airfoilStations_length (u : Bool) (n : ℕ) :
    (airfoilStations u n).length = n := by
  cases u <;> simp [airfoilStations, linspace, List.length_map, List.length_range]

theorem linspace_getD (a b : ℝ) (n j : ℕ) (hj : j < n) :
    (linspace a b n).getD j 0 = a + (b - a) * j / ((n : ℝ) - 1) := by
  rw [List.getD_eq_getElem _ _ (by rw [linspace_length]; exact hj)]
  unfold linspace
  rw [List.getElem_map]
  simp [List.getElem_range]

theorem airfoilStations_getD_true (n j : ℕ) (hj : j < n) :
    (airfoilStations true n).getD j 0 = (j : ℝ) / ((n : ℝ) - 1) := by
  have h : airfoilStations true n = linspace 0 1 n := by
    simp [airfoilStations]
  rw [h, linspace_getD _ _ _ _ hj]
  ring

theorem airfoilStations_getD_false (n j : ℕ) (hj : j < n) :
    (airfoilStations false n).getD j 0
      = 1 - Real.cos (Real.pi / 2 * (j : ℝ) / ((n : ℝ) - 1)) := by
  have h : airfoilStations false n
      = (linspace 0 (Real.pi / 2) n).map (fun th => 1 - Real.cos th) := by
    simp [airfoilStations]
  have hl := linspace_getD 0 (Real.pi / 2) n j hj
  rw [List.getD_eq_getElem _ _ (by rw [linspace_length]; exact hj)] at hl
  rw [h, List.getD_eq_getElem _ _ (by simp [linspace_length]; exact hj),
    List.getElem_map, hl]
  ring_nf

theorem airfoilStations_getD_zero (u : Bool) (n : ℕ) (hn : 1 ≤ n) :
    (airfoilStations u n).getD 0 0 = 0 := by
  cases u with
  | true =>
    rw [airfoilStations_getD_true n 0 (by omega)]
    simp
  | false =>
    rw [airfoilStations_getD_false n 0 (by omega)]
    simp

theorem airfoilStations_getD_pos (u : Bool) (n j : ℕ) (h1 : 1 ≤ j) (hj : j < n) :
    0 < (airfoilStations u n).getD j 0 := by
  have hn : 2 ≤ n := by omega
  have hden : (0 : ℝ) < (n : ℝ) - 1 := by
    have h2 : (2 : ℝ) ≤ (n : ℝ) := by exact_mod_cast hn
    linarith
  have hjpos : (0 : ℝ) < (j : ℝ) := by exact_mod_cast h1
  have hjle : (j : ℝ) ≤ (n : ℝ) - 1 := by
    have hs : (j : ℝ) + 1 ≤ (n : ℝ) := by exact_mod_cast hj
    linarith
  cases u with
  | true =>
    rw [airfoilStations_getD_true n j hj]
    exact div_pos hjpos hden
  | false =>
    rw [airfoilStations_getD_false n j hj]
    have hpi := Real.pi_pos
    set θ := Real.pi / 2 * (j : ℝ) / ((n : ℝ) - 1) with hθ
    have hθpos : 0 < θ := by
      rw [hθ]
      positivity
    have hθle : θ ≤ Real.pi := by
      rw [hθ, div_le_iff₀ hden]
      nlinarith
    have hcos : Real.cos θ < Real.cos 0 :=
      Real.strictAntiOn_cos ⟨le_refl 0, Real.pi_pos.le⟩ ⟨hθpos.le, hθle⟩ hθpos
    rw [Real.cos_zero] at hcos
    linarith

/-- Indexing the left half of `np.hstack([u[-1:0:-1], l])`: entry `k` (for
`k < n − 1`) is `u[n − 1 − k]`. -/
theorem rev_hstack_getD_left (u l : List ℝ) (n k : ℕ) (hu : u.length = n)
    (hl : l.length = n) (hk : k < n - 1) :
    ((u.drop 1).reverse ++ l).getD k 0 = u.getD (n - 1 - k) 0 := by
  rw [List.getD_eq_getElem _ _ (by simp [hu, hl]; omega),
    List.getD_eq_getElem _ _ (by omega : n - 1 - k < u.length)]
  rw [List.getElem_append_left (by simp [hu]; omega)]
  rw [List.getElem_reverse]
  rw [List.getElem_drop]
  congr 1
  simp only [List.length_reverse, List.length_drop, hu]
  omega

/-- Indexing the right half of `np.hstack([u[-1:0:-1], l])`: entry
`(n − 1) + k` (for `k < n`) is `l[k]`. -/
theorem rev_hstack_getD_right (u l : List ℝ) (n k : ℕ) (hu : u.length = n)
    (hl : l.length = n) (hk : k < n) :
    ((u.drop 1).reverse ++ l).getD ((n - 1) + k) 0 = l.getD k 0 := by
  rw [List.getD_eq_getElem _ _ (by simp [hu, hl]; omega),
    List.getD_eq_getElem _ _ (by omega : k < l.length)]
  rw [List.getElem_append_right (by simp [hu])]
  congr 1
  simp only [List.length_reverse, List.length_drop, hu]
  omega

theorem zipWith_map_getD (op : ℝ → ℝ → ℝ) (f g : ℝ → ℝ) (s : List ℝ) (j : ℕ)
    (hj : j < s.length) :
    (List.zipWith op (s.map f) (s.map g)).getD j 0
      = op (f (s.getD j 0)) (g (s.getD j 0)) := by
  rw [List.getD_eq_getElem _ _ (by simp; omega), List.getD_eq_getElem _ _ hj]
  rw [List.getElem_zipWith]
  simp

/-- C7 is false on the code: for the uniform 3-station airfoil the stations
are [0, 1/2, 1] and the assembled boundary x-sequence is [1, 1/2, 0, 1/2, 1]:
the slice `x[-1:0:-1]` stops before index 0, so the leading-edge point 0
appears exactly once (at the join) rather than being duplicated — the entry
after the join is 1/2, not 0 again, and the contour has 2N−1 = 5 points, not
the 2N = 6 a duplicated join would give. -/
theorem leading_edge_not_duplicated :
    airfoilX (airfoilStations true 3) = [1, 1 / 2, 0, 1 / 2, 1] ∧
    (airfoilX (airfoilStations true 3)).getD 2 0 = 0 ∧
    (airfoilX (airfoilStations true 3)).getD 3 0 ≠ 0 ∧
    (airfoilX (airfoilStations true 3)).length = 5 := by
  have hs : airfoilStations true 3 = [0, 1 / 2, 1] := by
    norm_num [airfoilStations, linspace, List.range_succ]
  refine ⟨?_, ?_, ?_, ?_⟩ <;>
    norm_num [airfoilX, hs, List.getD_cons_zero, List.getD_cons_succ]

/-- C7 (amended): for every spacing choice and every N ≥ 2 chordwise
stations, the boundary traverses the upper surface (camber plus thickness)
from trailing edge to leading edge — entry k < N−1 is station N−1−k — and
then the lower surface (camber minus thickness) from leading edge to trailing
edge — entry (N−1)+k is station k — as a single contour of 2N−1 points in
which the leading-edge point (station 0) appears exactly once, at the join
index N−1: it is *not* duplicated. -/
theorem airfoil_boundary_single_leading_edge (uniform zt : Bool) (m p t : ℝ)
    (n : ℕ) (hn : 2 ≤ n) :
    (airfoilX (airfoilStations uniform n)).length = 2 * n - 1 ∧
    (∀ k, k < n - 1 →
      (airfoilX (airfoilStations uniform n)).getD k 0
        = (airfoilStations uniform n).getD (n - 1 - k) 0 ∧
      (airfoilY ((airfoilStations uniform n).map (y_camber m p))
          ((airfoilStations uniform n).map (y_thick zt t))).getD k 0
        = y_camber m p ((airfoilStations uniform n).getD (n - 1 - k) 0)
          + y_thick zt t ((airfoilStations uniform n).getD (n - 1 - k) 0)) ∧
    (∀ k, k < n →
      (airfoilX (airfoilStations uniform n)).getD ((n - 1) + k) 0
        = (airfoilStations uniform n).getD k 0 ∧
      (airfoilY ((airfoilStations uniform n).map (y_camber m p))
          ((airfoilStations uniform n).map (y_thick zt t))).getD ((n - 1) + k) 0
        = y_camber m p ((airfoilStations uniform n).getD k 0)
          - y_thick zt t ((airfoilStations uniform n).getD k 0)) ∧
    (airfoilStations uniform n).getD 0 0 = 0 ∧
    (∀ i, i < 2 * n - 1 →
      ((airfoilX (airfoilStations uniform n)).getD i 0 = 0 ↔ i = n - 1)) := by
  have hs : (airfoilStations uniform n).length = n := airfoilStations_length uniform n
  have hupper : (List.zipWith (fun a b => a + b)
      ((airfoilStations uniform n).map (y_camber m p))
      ((airfoilStations uniform n).map (y_thick zt t))).length = n := by
    simp [hs]
  have hlower : (List.zipWith (fun a b => a - b)
      ((airfoilStations uniform n).map (y_camber m p))
      ((airfoilStations uniform n).map (y_thick zt t))).length = n := by
    simp [hs]
  refine ⟨?_, ?_, ?_, ?_, ?_⟩
  · simp only [airfoilX, List.length_append, List.length_reverse, List.length_drop, hs]
    omega
  · intro k hk
    refine ⟨rev_hstack_getD_left _ _ n k hs hs hk, ?_⟩
    rw [airfoilY, rev_hstack_getD_left _ _ n k hupper hlower hk,
      zipWith_map_getD _ _ _ _ _ (by omega : n - 1 - k < (airfoilStations uniform n).length)]
  · intro k hk
    refine ⟨rev_hstack_getD_right _ _ n k hs hs hk, ?_⟩
    rw [airfoilY, rev_hstack_getD_right _ _ n k hupper hlower hk,
      zipWith_map_getD _ _ _ _ _ (by omega : k < (airfoilStations uniform n).length)]
  · exact airfoilStations_getD_zero uniform n (by omega)
  · intro i hi
    by_cases hcase : i < n - 1
    · rw [airfoilX, rev_hstack_getD_left _ _ n i hs hs hcase]
      have hpos := airfoilStations_getD_pos uniform n (n - 1 - i) (by omega) (by omega)
      constructor
      · intro h
        rw [h] at hpos
        exact absurd hpos (lt_irrefl 0)
      · intro h
        exfalso
        omega
    · have hk : i = (n - 1) + (i - (n - 1)) := by omega
      rw [airfoilX, hk, rev_hstack_getD_right _ _ n (i - (n - 1)) hs hs (by omega)]
      by_cases hz : i - (n - 1) = 0
      · rw [hz, airfoilStations_getD_zero uniform n (by omega)]
        constructor
        · intro _
          omega
        · intro _
          rfl
      · have hpos := airfoilStations_getD_pos uniform n (i - (n - 1)) (by omega) (by omega)
        constructor
        · intro h
          rw [h] at hpos
          exact absurd hpos (lt_irrefl 0)
        · intro h
          exfalso
          omega

/-- Witness for the amended C7 at uniform spacing with N = 3 stations. -/
theorem airfoil_boundary_single_leading_edge_witness :
    (airfoilX (airfoilStations true 3)).length = 2 * 3 - 1 ∧
    (airfoilX (airfoilStations true 3)).getD 1 0
      = (airfoilStations true 3).getD (3 - 1 - 1) 0 ∧
    ((airfoilX (airfoilStations true 3)).getD 2 0 = 0 ↔ (2 : ℕ) = 3 - 1) :=
  ⟨(airfoil_boundary_single_leading_edge true false 0 0 0 3 (by norm_num)).1,
   ((airfoil_boundary_single_leading_edge true false 0 0 0 3 (by norm_num)).2.1
      1 (by norm_num)).1,
   (airfoil_boundary_single_leading_edge true false 0 0 0 3 (by norm_num)).2.2.2.2
      2 (by norm_num)⟩

end Pysces
